import Mathlib

/-!
Verification of the Newsfetch aggregation pipeline (src/newsfetch.py).

The Python program is shallowly embedded: article dictionaries become the
`Article` structure with optional fields, the lru-cached scraper becomes an
explicit association-list cache threaded through calls, the network becomes
an oracle `String → FetchOutcome`, and the regex-based text heuristics of
`NewsGUI._extract_author_and_date` are translated into executable scanners
with the same matching semantics on the inputs the patterns can produce.
-/

/-- Scraped data returned by `WebScraper.scrape_article`: the dictionary
with keys content, author, publication_date. -/
structure ScrapedData where
  content : String
  author : String
  publication_date : String
deriving DecidableEq

/-- The zero-value result the scraper degrades to on failure:
`{'content': '', 'author': 'Unknown', 'publication_date': 'Unknown'}`. -/
def zeroScrape : ScrapedData :=
  { content := "", author := "Unknown", publication_date := "Unknown" }

/-- Outcome of `requests.get(url)` together with what BeautifulSoup would
extract from the body: either a raised `RequestException`, or a response
with a status code, the text of the first article/content container (none
when no such container exists), and the author / published-time meta tags
(none when absent). -/
inductive FetchOutcome where
  | failure : FetchOutcome
  | page (status : Nat) (articleText : Option String)
      (authorMeta : Option String) (dateMeta : Option String) : FetchOutcome

/-- Embedding of the body of `WebScraper.scrape_article` (without the cache):
403 returns the zero value; `raise_for_status` raises for 4xx/5xx, which the
`except` clause turns into the zero value; otherwise the container text is
truncated to 500 characters and missing meta tags default to "Unknown". -/
def scrapeFresh (net : String → FetchOutcome) (url : String) : ScrapedData :=
  match net url with
  | FetchOutcome.failure => zeroScrape
  | FetchOutcome.page status text authM dateM =>
    if status = 403 then zeroScrape
    else if 400 ≤ status ∧ status < 600 then zeroScrape
    else
      { content := match text with
          | some s => if s = "" then "" else s.take 500
          | none => ""
        author := match authM with | some a => a | none => "Unknown"
        publication_date := match dateM with | some d => d | none => "Unknown" }

/-- Lookup in the lru_cache, keyed by url. -/
def cacheFind (u : String) : List (String × ScrapedData) → Option ScrapedData
  | [] => none
  | (k, v) :: rest => if k = u then some v else cacheFind u rest

/-- Remove the entry for `u` (used to move a hit entry to the
most-recently-used position). -/
def cacheErase (u : String) (c : List (String × ScrapedData)) :
    List (String × ScrapedData) :=
  c.filter (fun p => decide (p.1 ≠ u))

/-- Result of one call through the `@lru_cache(maxsize=100)` wrapper:
the returned value, the cache afterwards (most recent first), and how many
network fetches the call issued. -/
structure ScrapeCall where
  result : ScrapedData
  cache : List (String × ScrapedData)
  fetches : Nat
deriving DecidableEq

/-- Embedding of `WebScraper.scrape_article` as decorated with
`functools.lru_cache(maxsize=100)`: a hit returns the cached value and moves
it to the most-recently-used slot without fetching; a miss fetches, inserts
at the front and evicts down to 100 entries. -/
def scrapeCached (net : String → FetchOutcome)
    (c : List (String × ScrapedData)) (u : String) : ScrapeCall :=
  match cacheFind u c with
  | some v => { result := v, cache := (u, v) :: cacheErase u c, fetches := 0 }
  | none =>
    { result := scrapeFresh net u
      cache := ((u, scrapeFresh net u) :: c).take 100
      fetches := 1 }

/-- An article dictionary as the pipeline holds it: every key may be absent.
`content` is the API snippet before enrichment and the enriched content
afterwards, mirroring `article.update(scraped_data)`. -/
structure Article where
  url : Option String
  title : Option String
  source_name : Option String
  description : Option String
  content : Option String
  author : Option String
  publication_date : Option String
deriving DecidableEq

/-- Python truthiness of an optional string: `None` and `""` are falsy. -/
def pyTruthy : Option String → Bool
  | none => false
  | some s => decide (s ≠ "")

/-- Python `x or default` for an optional string `x`. -/
def pyOrS (x : Option String) (dflt : String) : String :=
  match x with
  | some s => if s = "" then dflt else s
  | none => dflt

/-- The content stored by `aggregate`: when the scraped content is falsy it
is replaced by `article.get("description") or article.get("content") or
"Content not available"`. -/
def substContent (scraped : String) (desc rawc : Option String) : String :=
  if scraped = "" then pyOrS desc (pyOrS rawc "Content not available")
  else scraped

/-- One iteration of the enrichment loop in `NewsAggregator.aggregate`:
articles with a truthy url are scraped (through the cache) and updated with
the scraped fields; others are left untouched. -/
def enrichOne (net : String → FetchOutcome)
    (c : List (String × ScrapedData)) (a : Article) :
    Article × List (String × ScrapedData) :=
  match a.url with
  | some u =>
    if u = "" then (a, c)
    else
      ({ a with
          content := some (substContent (scrapeCached net c u).result.content
            a.description a.content)
          author := some (scrapeCached net c u).result.author
          publication_date :=
            some (scrapeCached net c u).result.publication_date },
        (scrapeCached net c u).cache)
  | none => (a, c)

/-- The whole enrichment loop, threading the scrape cache left to right. -/
def enrichList (net : String → FetchOutcome)
    (c : List (String × ScrapedData)) :
    List Article → List Article × List (String × ScrapedData)
  | [] => ([], c)
  | a :: rest =>
    ((enrichOne net c a).1 ::
        (enrichList net (enrichOne net c a).2 rest).1,
      (enrichList net (enrichOne net c a).2 rest).2)

/-- Embedding of `NewsAggregator._clean_data`, generalized over the set of
urls already seen: an article is kept iff its url is truthy and unseen. -/
def cleanAux (seen : List String) : List Article → List Article
  | [] => []
  | a :: rest =>
    match a.url with
    | none => cleanAux seen rest
    | some u =>
      if u ≠ "" ∧ u ∉ seen then a :: cleanAux (u :: seen) rest
      else cleanAux seen rest

/-- `NewsAggregator._clean_data` itself, starting from an empty seen set. -/
def cleanData (l : List Article) : List Article := cleanAux [] l

/-- Embedding of `NewsAggregator.aggregate` applied to the list the API
returned: enrich every article with a truthy url, then deduplicate. -/
def aggregate (net : String → FetchOutcome)
    (c : List (String × ScrapedData)) (fetched : List Article) :
    List Article × List (String × ScrapedData) :=
  (cleanData (enrichList net c fetched).1, (enrichList net c fetched).2)

/-! Text heuristics of `NewsGUI`: `_ordinal` and `_extract_author_and_date`.
Text is modelled as `List Char`; the character classes below are the ASCII
parts of the regex classes used by the Python patterns. -/

/-- ASCII uppercase letter, the class `[A-Z]` (and `str.isupper` on the
ASCII inputs the heuristics operate on). -/
def upperA (c : Char) : Bool := decide ('A' ≤ c ∧ c ≤ 'Z')

/-- ASCII lowercase letter, the class `[a-z]`. -/
def lowerA (c : Char) : Bool := decide ('a' ≤ c ∧ c ≤ 'z')

/-- ASCII letter, the class `[a-zA-Z]`. -/
def letterA (c : Char) : Bool := upperA c || lowerA c

/-- ASCII decimal digit, the class `\d` on ASCII input. -/
def digitA (c : Char) : Bool := decide ('0' ≤ c ∧ c ≤ '9')

/-- ASCII whitespace, the class `\s` on ASCII input. -/
def pySpace (c : Char) : Bool :=
  decide (c = ' ' ∨ c = '\t' ∨ c = '\n' ∨ c = '\x0d' ∨ c = '\x0b' ∨ c = '\x0c')

/-- Embedding of `NewsGUI._ordinal`: suffix "th" when `n % 100` lies in
10..20, otherwise "st"/"nd"/"rd" for last digit 1/2/3, else "th". -/
def ordinalSuffix (n : Nat) : String :=
  if 10 ≤ n % 100 ∧ n % 100 ≤ 20 then "th"
  else if n % 10 = 1 then "st"
  else if n % 10 = 2 then "nd"
  else if n % 10 = 3 then "rd"
  else "th"

/-- The full ordinal string `f"{n}{suffix}"` returned by `_ordinal`. -/
def pyOrdinal (n : Nat) : String := toString n ++ ordinalSuffix n

/-- Matcher for the group tail `(?:\s+[A-Z][a-zA-Z]*)*` of the author
pattern, greedy, with fuel bounded by the input length (every iteration
consumes at least the whitespace run). -/
def grabTailF : Nat → List Char → List Char
  | 0, _ => []
  | fuel + 1, l =>
    match l.takeWhile pySpace with
    | [] => []
    | sp =>
      match l.drop sp.length with
      | c :: cs =>
        if upperA c then
          sp ++ (c :: cs.takeWhile letterA) ++
            grabTailF fuel (cs.drop (cs.takeWhile letterA).length)
        else []
      | [] => []

/-- Group captured by `r'By([A-Z][a-zA-Z]*(?:\s+[A-Z][a-zA-Z]*)*)'` when a
match starts at the head of the input, none otherwise. -/
def matchAuthorAt : List Char → Option (List Char)
  | 'B' :: 'y' :: c :: cs =>
    if upperA c then
      some ((c :: cs.takeWhile letterA) ++
        grabTailF cs.length (cs.drop (cs.takeWhile letterA).length))
    else none
  | _ => none

/-- Leftmost match of the author pattern, as found by `re.search`. -/
def searchAuthor : List Char → Option (List Char)
  | [] => none
  | c :: rest =>
    match matchAuthorAt (c :: rest) with
    | some g => some g
    | none => searchAuthor rest

/-- Inner loop of the author scan: append characters until one is uppercase
and the previously appended character is not a space. -/
def scanGo (prev : Char) : List Char → List Char
  | [] => []
  | c :: rest =>
    if upperA c = true ∧ prev ≠ ' ' then []
    else c :: scanGo c rest

/-- The scan over the captured name in `_extract_author_and_date`: the
first character (index 0) is always kept, then `scanGo` runs with the
previous kept character as state. -/
def scanStop : List Char → List Char
  | [] => []
  | c :: rest => c :: scanGo c rest

/-- Python `str.split()` with no argument: split on whitespace runs,
dropping empty pieces; fuel bounded by the input length. -/
def pySplitF : Nat → List Char → List (List Char)
  | 0, _ => []
  | fuel + 1, l =>
    match l.dropWhile pySpace with
    | [] => []
    | c :: cs =>
      ((c :: cs) |>.takeWhile (fun x => !pySpace x)) ::
        pySplitF fuel ((c :: cs).dropWhile (fun x => !pySpace x))

/-- The whitespace collapsing `' '.join(''.join(result).split())`. -/
def collapseWs (l : List Char) : List Char :=
  List.intercalate [' '] (pySplitF l.length l)

/-- Author extraction of `_extract_author_and_date`: search the pattern,
scan the captured name, collapse whitespace. -/
def extractAuthor (text : List Char) : Option String :=
  match searchAuthor text with
  | some g => some (String.mk (collapseWs (scanStop g)))
  | none => none

/-- Continuation of the date pattern after the comma: `\s*` then `(\d{4})`.
Returns the three captured groups. -/
def yearAfter (m d t3 : List Char) :
    Option (List Char × List Char × List Char) :=
  match t3.dropWhile pySpace with
  | a :: b :: c :: e :: _ =>
    if digitA a && digitA b && digitA c && digitA e then some (m, d, [a, b, c, e])
    else none
  | _ => none

/-- The `(\d{1,2}),` part of the date pattern with the regex backtracking
resolved: two digits followed by a comma are preferred, one digit followed
by a comma otherwise. -/
def dayComma (m : List Char) : List Char → Option (List Char × List Char × List Char)
  | d1 :: t1 =>
    if digitA d1 then
      match t1 with
      | ',' :: t3 => yearAfter m [d1] t3
      | d2 :: t2 =>
        if digitA d2 then
          match t2 with
          | ',' :: t3 => yearAfter m [d1, d2] t3
          | _ => none
        else none
      | [] => none
    else none
  | [] => none

/-- Match of `r'([A-Z][a-z]+)\s+(\d{1,2}),\s*(\d{4})'` starting at the head
of the input. -/
def matchDateAt : List Char → Option (List Char × List Char × List Char)
  | c :: cs =>
    if upperA c then
      match cs.takeWhile lowerA with
      | [] => none
      | ml =>
        match (cs.drop ml.length).takeWhile pySpace with
        | [] => none
        | sp => dayComma (c :: ml) ((cs.drop ml.length).drop sp.length)
    else none
  | [] => none

/-- Leftmost match of the date pattern, as found by `re.search`. -/
def searchDate : List Char → Option (List Char × List Char × List Char)
  | [] => none
  | c :: rest =>
    match matchDateAt (c :: rest) with
    | some r => some r
    | none => searchDate rest

/-- Date produced by `datetime.strptime` / `fromisoformat`. -/
structure PyDate where
  year : Nat
  month : Nat
  day : Nat
deriving DecidableEq

/-- Full month names in order, as matched by the `%B` directive. -/
def monthNames : List String :=
  ["January", "February", "March", "April", "May", "June", "July",
   "August", "September", "October", "November", "December"]

/-- Month name used by the `%B` directive of `strftime` (1-based). -/
def monthName (m : Nat) : String := monthNames.getD (m - 1) ""

/-- Numeric value of a digit string. -/
def digitsVal (l : List Char) : Nat :=
  l.foldl (fun n c => n * 10 + (c.toNat - 48)) 0

/-- Gregorian leap-year rule used by `datetime`. -/
def isLeap (y : Nat) : Bool :=
  y % 4 == 0 && (y % 100 != 0 || y % 400 == 0)

/-- Length of a month as validated by the `datetime` constructor. -/
def daysInMonth (m y : Nat) : Nat :=
  if m = 2 then (if isLeap y then 29 else 28)
  else if m = 4 ∨ m = 6 ∨ m = 9 ∨ m = 11 then 30
  else 31

/-- Month number for a captured `[A-Z][a-z]+` month group under `%B`
(which succeeds exactly on the full month names for groups of this shape). -/
def monthNum (m : List Char) : Option Nat :=
  (monthNames.findIdx? (fun s => s == String.mk m)).map (· + 1)

/-- Embedding of `datetime.strptime(' '.join(groups), "%B %d %Y")` on the
captured groups: `%d` accepts values 1..31, the constructor then checks the
day against the month length and requires `MINYEAR ≤ year`. -/
def strptimeBDY (m d y : List Char) : Option PyDate :=
  match monthNum m with
  | none => none
  | some mn =>
    if 1 ≤ digitsVal d ∧ digitsVal d ≤ 31 ∧
        digitsVal d ≤ daysInMonth mn (digitsVal y) ∧ 1 ≤ digitsVal y then
      some { year := digitsVal y, month := mn, day := digitsVal d }
    else none

/-- Rendering `dt.strftime(f"{day} %B, %Y")` with `day = _ordinal(dt.day)`. -/
def renderDate (dt : PyDate) : String :=
  pyOrdinal dt.day ++ " " ++ monthName dt.month ++ ", " ++ toString dt.year

/-- Date extraction of `_extract_author_and_date`: on a regex match the
groups are parsed with `strptime`; any parse failure is caught and leaves
`date_str = None`. -/
def extractDate (text : List Char) : Option String :=
  match searchDate text with
  | none => none
  | some (m, d, y) =>
    match strptimeBDY m d y with
    | some dt => some (renderDate dt)
    | none => none

/-- The pair returned by `NewsGUI._extract_author_and_date`. -/
def extractAuthorAndDate (text : List Char) : Option String × Option String :=
  (extractAuthor text, extractDate text)

/-- Formatting of an already-known `publication_date` in
`_fetch_news_thread`: `datetime.fromisoformat` (modelled as an oracle,
it is library code external to the repository) after replacing "Z" by
"+00:00"; a `ValueError` leaves the raw string as is. -/
def isoDisplay (isoParse : String → Option PyDate) (raw : String) : String :=
  match isoParse (raw.replace "Z" "+00:00") with
  | some d => renderDate d
  | none => raw

/-- The author/date pair as displayed for one article. -/
structure DisplayFields where
  author : String
  date : String
deriving DecidableEq

/-- Embedding of the per-article reconciliation in
`NewsGUI._fetch_news_thread`: heuristics run only when author or date is
"Unknown", a heuristic hit fills only a still-unknown field, and a known
date is formatted from its ISO form (kept raw when it fails to parse). -/
def reconcile (isoParse : String → Option PyDate) (author rawDate : String)
    (content : List Char) : DisplayFields :=
  if author = "Unknown" ∨ rawDate = "Unknown" then
    { author :=
        if author = "Unknown" ∧ pyTruthy (extractAuthorAndDate content).1 then
          (extractAuthorAndDate content).1.getD ""
        else author
      date :=
        if rawDate = "Unknown" ∧ pyTruthy (extractAuthorAndDate content).2 then
          (extractAuthorAndDate content).2.getD ""
        else if rawDate ≠ "Unknown" then isoDisplay isoParse rawDate
        else "Unknown" }
  else { author := author, date := isoDisplay isoParse rawDate }

/-! Helper lemmas about the deduplication step. -/

/-- Boolean predicate selecting articles whose url equals `u`. -/
def hasUrl (u : String) (a : Article) : Bool := decide (a.url = some u)

theorem cleanAux_sublist (seen : List String) (l : List Article) :
    List.Sublist (cleanAux seen l) l := by
  induction l generalizing seen with
  | nil => simp [cleanAux]
  | cons a rest ih =>
    cases h : a.url with
    | none =>
      simp only [cleanAux, h]
      exact (ih seen).cons a
    | some u =>
      simp only [cleanAux, h]
      by_cases hc : u ≠ "" ∧ u ∉ seen
      · rw [if_pos hc]
        exact (ih (u :: seen)).cons₂ a
      · rw [if_neg hc]
        exact (ih seen).cons a

theorem mem_cleanAux {a : Article} (seen : List String) (l : List Article)
    (hmem : a ∈ cleanAux seen l) :
    ∃ u, a.url = some u ∧ u ≠ "" ∧ u ∉ seen := by
  induction l generalizing seen with
  | nil => simp [cleanAux] at hmem
  | cons b rest ih =>
    cases h : b.url with
    | none =>
      simp only [cleanAux, h] at hmem
      exact ih seen hmem
    | some u =>
      simp only [cleanAux, h] at hmem
      by_cases hc : u ≠ "" ∧ u ∉ seen
      · rw [if_pos hc] at hmem
        rcases List.mem_cons.mp hmem with rfl | hmem'
        · exact ⟨u, h, hc⟩
        · obtain ⟨u', hu', hne, hnotin⟩ := ih (u :: seen) hmem'
          exact ⟨u', hu', hne, fun hin => hnotin (List.mem_cons_of_mem _ hin)⟩
      · rw [if_neg hc] at hmem
        exact ih seen hmem

theorem cleanAux_filter {u : String} (hu : u ≠ "") (seen : List String)
    (l : List Article) :
    (cleanAux seen l).filter (hasUrl u) =
      if u ∈ seen then [] else (l.find? (hasUrl u)).toList := by
  induction l generalizing seen with
  | nil => simp [cleanAux]
  | cons b rest ih =>
    cases h : b.url with
    | none =>
      have hb : ¬ (hasUrl u b = true) := by simp [hasUrl, h]
      simp only [cleanAux, h, List.find?_cons_of_neg _ hb]
      exact ih seen
    | some v =>
      rcases eq_or_ne v u with rfl | hvne
      · have hb : hasUrl v b = true := by simp [hasUrl, h]
        by_cases hseen : v ∈ seen
        · have hc : ¬ (v ≠ "" ∧ v ∉ seen) := by
            intro hc
            exact hc.2 hseen
          simp only [cleanAux, h, if_neg hc]
          rw [ih seen, if_pos hseen, if_pos hseen]
        · have hc : v ≠ "" ∧ v ∉ seen := ⟨hu, hseen⟩
          simp only [cleanAux, h, if_pos hc]
          rw [List.filter_cons, if_pos hb, ih (v :: seen),
            if_pos (List.mem_cons_self v seen), if_neg hseen,
            List.find?_cons_of_pos _ hb]
          rfl
      · have hb : ¬ (hasUrl u b = true) := by simp [hasUrl, h, hvne]
        rw [List.find?_cons_of_neg _ hb]
        by_cases hc : v ≠ "" ∧ v ∉ seen
        · simp only [cleanAux, h, if_pos hc]
          rw [List.filter_cons, if_neg hb, ih (v :: seen)]
          by_cases hs : u ∈ seen
          · rw [if_pos (List.mem_cons_of_mem v hs), if_pos hs]
          · have hs' : u ∉ v :: seen := by
              simp [List.mem_cons, hs, Ne.symm hvne]
            rw [if_neg hs', if_neg hs]
        · simp only [cleanAux, h, if_neg hc]
          exact ih seen

theorem cleanAux_pairwise (seen : List String) (l : List Article) :
    (cleanAux seen l).Pairwise (fun a b => a.url ≠ b.url) := by
  induction l generalizing seen with
  | nil => simp [cleanAux]
  | cons b rest ih =>
    cases h : b.url with
    | none =>
      simp only [cleanAux, h]
      exact ih seen
    | some v =>
      simp only [cleanAux, h]
      by_cases hc : v ≠ "" ∧ v ∉ seen
      · rw [if_pos hc]
        refine List.Pairwise.cons ?_ (ih (v :: seen))
        intro x hx
        obtain ⟨u', hx', _, hnotin⟩ := mem_cleanAux (v :: seen) rest hx
        rw [h, hx']
        intro heq
        apply hnotin
        injection heq with heq'
        exact heq' ▸ List.mem_cons_self v seen
      · rw [if_neg hc]
        exact ih seen

theorem cleanAux_of_clean (seen : List String) (l : List Article)
    (hall : ∀ a ∈ l, ∃ u, a.url = some u ∧ u ≠ "" ∧ u ∉ seen)
    (hpw : l.Pairwise (fun a b => a.url ≠ b.url)) :
    cleanAux seen l = l := by
  induction l generalizing seen with
  | nil => rfl
  | cons b rest ih =>
    obtain ⟨u, hb, hne, hnotin⟩ := hall b (List.mem_cons_self b rest)
    simp only [cleanAux, hb]
    rw [if_pos ⟨hne, hnotin⟩]
    congr 1
    apply ih (u :: seen)
    · intro a ha
      obtain ⟨u', ha', hne', hnotin'⟩ := hall a (List.mem_cons_of_mem _ ha)
      refine ⟨u', ha', hne', ?_⟩
      intro hin
      rcases List.mem_cons.mp hin with rfl | hin'
      · have hpair := (List.pairwise_cons.mp hpw).1 a ha
        rw [hb, ha'] at hpair
        exact hpair rfl
      · exact hnotin' hin'
    · exact (List.pairwise_cons.mp hpw).2

/-- Pair predicate for the author scan boundary: the second character is
uppercase and the character right before it is not a space. -/
def stopPair (p : Char × Char) : Bool := upperA p.2 && decide (p.1 ≠ ' ')

theorem scanGo_eq (prev : Char) (l : List Char) :
    scanGo prev l = l.take (((prev :: l).zip l).findIdx stopPair) := by
  induction l generalizing prev with
  | nil => rfl
  | cons c cs ih =>
    by_cases hc : upperA c = true ∧ prev ≠ ' '
    · have hp : stopPair (prev, c) = true := by
        simp [stopPair, hc.1, hc.2]
      simp only [scanGo, if_pos hc, List.zip_cons_cons, List.findIdx_cons, hp,
        cond_true, List.take_zero]
    · have hp : stopPair (prev, c) = false := by
        rcases not_and_or.mp hc with h1 | h2
        · have h1f : upperA c = false := by
            cases hx : upperA c
            · rfl
            · exact absurd hx h1
          simp [stopPair, h1f]
        · simp [stopPair, not_not.mp h2]
      simp only [scanGo, if_neg hc, List.zip_cons_cons, List.findIdx_cons, hp,
        cond_false, List.take_succ_cons]
      rw [ih c]

theorem scanStop_eq (name : List Char) :
    scanStop name = name.take ((name.zip name.tail).findIdx stopPair + 1) := by
  cases name with
  | nil => rfl
  | cons c rest =>
    simp only [scanStop, List.tail_cons]
    rw [scanGo_eq c rest, List.take_succ_cons]

/-- Membership of `pat` as a contiguous run at the head of the input. -/
def startsWithSeq : List Char → List Char → Bool
  | [], _ => true
  | _ :: _, [] => false
  | p :: ps, c :: cs => p == c && startsWithSeq ps cs

/-- Membership of `pat` as a contiguous run anywhere in the input. -/
def containsSeq (pat : List Char) : List Char → Bool
  | [] => startsWithSeq pat []
  | c :: rest => startsWithSeq pat (c :: rest) || containsSeq pat rest

/-- Ordinal suffix rule exactly as the specification words it: day values
11 through 20 use "th"; otherwise "st"/"nd"/"rd" for last digit 1/2/3,
else "th". Stated for comparison against `ordinalSuffix` from the code. -/
def claimSuffix (n : Nat) : String :=
  if 11 ≤ n ∧ n ≤ 20 then "th"
  else if n % 10 = 1 then "st"
  else if n % 10 = 2 then "nd"
  else if n % 10 = 3 then "rd"
  else "th"

/-! Concrete articles used in counterexamples and witnesses. -/

/-- An article whose dictionary has no url key. -/
def noUrlArticle : Article := ⟨none, some "t1", none, none, none, none, none⟩

/-- An article whose url is the empty string. -/
def emptyUrlArticle : Article := ⟨some "", some "t2", none, none, none, none, none⟩

/-- A second article whose url is the empty string. -/
def emptyUrlArticle2 : Article := ⟨some "", some "t3", none, none, none, none, none⟩

/-- First article with url "a". -/
def artA1 : Article := ⟨some "a", some "x1", none, none, none, none, none⟩

/-- Second article with url "a". -/
def artA2 : Article := ⟨some "a", some "x2", none, none, none, none, none⟩

/-- An article with url "b". -/
def artB : Article := ⟨some "b", some "x3", none, none, none, none, none⟩

/-- A fetched article used for the aggregate witness. -/
def witArticle : Article := ⟨some "x", none, none, none, none, none, none⟩

/-- The enrichment of `witArticle` under an always-failing network. -/
def witOut : Article :=
  ⟨some "x", none, none, none, some "Content not available", some "Unknown",
    some "Unknown"⟩

/-- C1 counterexample: `_clean_data` drops an article without a url and an
article with an empty url, while the claim says both are kept. -/
theorem c1_counterexample :
    cleanData [noUrlArticle, emptyUrlArticle] = [] := by decide

/-- C1 (amended): in the deduplication step, every article whose url is
absent or empty is dropped from the output collection; only articles with a
non-empty url can survive `_clean_data`. -/
theorem c1_nourl_dropped (l : List Article) (a : Article)
    (h : a.url = none ∨ a.url = some "") : a ∉ cleanData l := by
  intro hmem
  obtain ⟨u, hu, hne, _⟩ := mem_cleanAux [] l hmem
  rcases h with h | h
  · rw [h] at hu
    exact Option.noConfusion hu
  · rw [h] at hu
    injection hu with hu'
    exact hne hu'.symm

/-- C1 witness: the no-url article concretely fails to appear in the
deduplicated output. -/
theorem c1_witness :
    (noUrlArticle.url = none ∨ noUrlArticle.url = some "") ∧
      noUrlArticle ∉ cleanData [noUrlArticle, emptyUrlArticle] :=
  ⟨Or.inl rfl, c1_nourl_dropped [noUrlArticle, emptyUrlArticle] noUrlArticle
    (Or.inl rfl)⟩

/-- C2 counterexample: the url value "" occurs in two input articles, yet
zero articles with that url survive the dedup step, not exactly one. -/
theorem c2_counterexample :
    ([emptyUrlArticle, emptyUrlArticle2] : List Article).countP (hasUrl "") = 2
      ∧ (cleanData [emptyUrlArticle, emptyUrlArticle2]).countP (hasUrl "") = 0 := by
  decide

/-- C2 (amended): applying the dedup step twice equals applying it once;
the output is a sublist of the input (order of first occurrences is
preserved); no two output articles share a non-empty url; and for every
NON-EMPTY url occurring in more than one article, exactly one article with
that url survives, namely the first in original order. -/
theorem c2_dedup_amended (l : List Article) :
    cleanData (cleanData l) = cleanData l ∧
    List.Sublist (cleanData l) l ∧
    (cleanData l).Pairwise
      (fun a b => ¬ (a.url = b.url ∧ pyTruthy a.url = true)) ∧
    ∀ u : String, u ≠ "" → 2 ≤ l.countP (hasUrl u) →
      ∃ a, l.find? (hasUrl u) = some a ∧
        (cleanData l).filter (hasUrl u) = [a] := by
  refine ⟨?_, cleanAux_sublist [] l, ?_, ?_⟩
  · exact cleanAux_of_clean [] (cleanData l)
      (fun a ha => mem_cleanAux [] l ha) (cleanAux_pairwise [] l)
  · exact (cleanAux_pairwise [] l).imp (fun h hconj => h hconj.1)
  · intro u hu hcount
    have hex : ∃ a, a ∈ l ∧ hasUrl u a := by
      have h0 : 0 < l.countP (hasUrl u) := by omega
      obtain ⟨a, ha, hp⟩ := List.countP_pos_iff.mp h0
      exact ⟨a, ha, hp⟩
    obtain ⟨a, ha⟩ := Option.isSome_iff_exists.mp (List.find?_isSome.mpr hex)
    refine ⟨a, ha, ?_⟩
    have hfil := cleanAux_filter hu [] l
    rw [if_neg (List.not_mem_nil u)] at hfil
    rw [cleanData, hfil, ha]
    rfl

/-- C2 witness: on the specification's own example (urls "a", "a", "b"),
exactly one article with url "a" survives and it is the first one. -/
theorem c2_witness :
    ∃ a, ([artA1, artA2, artB] : List Article).find? (hasUrl "a") = some a ∧
      (cleanData [artA1, artA2, artB]).filter (hasUrl "a") = [a] :=
  (c2_dedup_amended [artA1, artA2, artB]).2.2.2 "a" (by decide) (by decide)

/-- C3: starting from any cache state, two consecutive calls of the
lru-cached `scrape_article` with the same url issue at most one network
fetch between them, and the second call returns the result of the first. -/
theorem c3_memoization (net : String → FetchOutcome)
    (c : List (String × ScrapedData)) (u : String) :
    (scrapeCached net (scrapeCached net c u).cache u).result =
      (scrapeCached net c u).result ∧
    (scrapeCached net c u).fetches +
      (scrapeCached net (scrapeCached net c u).cache u).fetches ≤ 1 := by
  cases h : cacheFind u c with
  | some v =>
    have h1 : scrapeCached net c u =
        { result := v, cache := (u, v) :: cacheErase u c, fetches := 0 } := by
      simp [scrapeCached, h]
    have h2 : cacheFind u ((u, v) :: cacheErase u c) = some v := by
      simp [cacheFind]
    rw [h1]
    simp [scrapeCached, h2]
  | none =>
    have h1 : scrapeCached net c u =
        { result := scrapeFresh net u,
          cache := ((u, scrapeFresh net u) :: c).take 100, fetches := 1 } := by
      simp [scrapeCached, h]
    have htake : ((u, scrapeFresh net u) :: c).take 100 =
        (u, scrapeFresh net u) :: c.take 99 := rfl
    have h2 : cacheFind u ((u, scrapeFresh net u) :: c.take 99) =
        some (scrapeFresh net u) := by
      simp [cacheFind]
    rw [h1]
    simp [scrapeCached, htake, h2]

/-- C4 counterexample: "Foo 17, 2025" matches the Month Day, Year pattern,
fails to parse (no month "Foo"), and the extraction result is `none` — the
raw matched text "Foo 17, 2025" is discarded, not preserved. -/
theorem c4_counterexample :
    searchDate ("Foo 17, 2025".toList) =
      some ("Foo".toList, "17".toList, "2025".toList) ∧
    extractDate ("Foo 17, 2025".toList) = none := by
  exact ⟨by decide, by decide⟩

/-- C4 (amended): whenever the content matches the Month Day, Year pattern
but the matched groups fail to parse as a calendar date, the date part of
the extraction result is `None` — the raw date text is discarded. -/
theorem c4_parse_failure_discards (text m d y : List Char)
    (hmatch : searchDate text = some (m, d, y))
    (hfail : strptimeBDY m d y = none) :
    extractDate text = none := by
  simp [extractDate, hmatch, hfail]

/-- C4 witness: the amended statement evaluated at "Foo 17, 2025". -/
theorem c4_witness : extractDate ("Foo 17, 2025".toList) = none :=
  c4_parse_failure_discards ("Foo 17, 2025".toList) ("Foo".toList)
    ("17".toList) ("2025".toList) (by decide) (by decide)

/-- C5: over the day-of-month range 1..31 the ordinal rendering of
`_ordinal` agrees with the claim's rule: "th" for 11..20, otherwise
"st"/"nd"/"rd" for last digit 1/2/3, else "th". -/
theorem c5_ordinal (n : Nat) (h1 : 1 ≤ n) (h2 : n ≤ 31) :
    pyOrdinal n = toString n ++ claimSuffix n := by
  interval_cases n <;> rfl

/-- C5 witness: day 23 renders as "23rd" in both formulations. -/
theorem c5_witness : pyOrdinal 23 = toString 23 ++ claimSuffix 23 :=
  c5_ordinal 23 (by decide) (by decide)

/-- C6: the author scan stops exactly at the first capitalized letter not
preceded by a space (expressed via the first violating adjacent pair), and
on "ByJaneSmithMay 17, 2025 more text" the extracted author is "Jane",
which does not contain the date token "May". -/
theorem c6_author_boundary :
    (∀ name : List Char, scanStop name =
      name.take ((name.zip name.tail).findIdx stopPair + 1)) ∧
    extractAuthor ("ByJaneSmithMay 17, 2025 more text".toList) = some "Jane" ∧
    containsSeq ("May".toList) ("Jane".toList) = false :=
  ⟨scanStop_eq, by decide, by decide⟩

/-- C7: when the enrichment content is empty, the substituted content is the
headline's non-empty description if present, else its non-empty raw API
content, else the literal "Content not available"; in particular the
description always wins over the raw content when both are present. -/
theorem c7_content_fallback (sc : String) (desc rawc : Option String)
    (hempty : sc = "") :
    (∀ d : String, desc = some d → d ≠ "" → substContent sc desc rawc = d) ∧
    ((desc = none ∨ desc = some "") → ∀ r : String, rawc = some r → r ≠ "" →
      substContent sc desc rawc = r) ∧
    ((desc = none ∨ desc = some "") → (rawc = none ∨ rawc = some "") →
      substContent sc desc rawc = "Content not available") := by
  subst hempty
  refine ⟨?_, ?_, ?_⟩
  · intro d hd hdne
    simp [substContent, pyOrS, hd, hdne]
  · intro hdesc r hr hrne
    rcases hdesc with h | h <;> simp [substContent, pyOrS, h, hr, hrne]
  · intro hdesc hrawc
    rcases hdesc with h | h <;> rcases hrawc with h2 | h2 <;>
      simp [substContent, pyOrS, h, h2]

/-- C7 witness: with both description "D" and raw content "R" present, the
substitution picks "D". -/
theorem c7_witness : substContent "" (some "D") (some "R") = "D" :=
  (c7_content_fallback "" (some "D") (some "R") rfl).1 "D" rfl (by decide)

/-- C8: reconciliation never overwrites an already-known field: when the
enriched author is not "Unknown" it is displayed unchanged whatever the
heuristics would extract, and when the enriched date is not "Unknown" the
displayed date is its ISO formatting, independent of the content. -/
theorem c8_no_overwrite (isoParse : String → Option PyDate)
    (author rawDate : String) (content : List Char) :
    (author ≠ "Unknown" →
      (reconcile isoParse author rawDate content).author = author) ∧
    (rawDate ≠ "Unknown" →
      (reconcile isoParse author rawDate content).date =
        isoDisplay isoParse rawDate) := by
  constructor
  · intro ha
    simp only [reconcile]
    by_cases hor : author = "Unknown" ∨ rawDate = "Unknown"
    · rw [if_pos hor]
      have hno : ¬ (author = "Unknown" ∧
          pyTruthy (extractAuthorAndDate content).1 = true) :=
        fun hand => ha hand.1
      rw [if_neg hno]
    · rw [if_neg hor]
  · intro hd
    simp only [reconcile]
    by_cases hor : author = "Unknown" ∨ rawDate = "Unknown"
    · rw [if_pos hor]
      have hno : ¬ (rawDate = "Unknown" ∧
          pyTruthy (extractAuthorAndDate content).2 = true) :=
        fun hand => hd hand.1
      rw [if_neg hno, if_pos hd]
    · rw [if_neg hor]

/-- C8 witness: with author "Alice" and a non-Unknown raw date, the
reconciliation leaves both fields as computed without heuristics. -/
theorem c8_witness :
    ((Ne (α := String) "Alice" "Unknown") ∧
      (reconcile (fun _ => none) "Alice" "raw" []).author = "Alice") ∧
    ((Ne (α := String) "raw" "Unknown") ∧
      (reconcile (fun _ => none) "Alice" "raw" []).date =
        isoDisplay (fun _ => none) "raw") :=
  ⟨⟨by decide, (c8_no_overwrite (fun _ => none) "Alice" "raw" []).1 (by decide)⟩,
   ⟨by decide, (c8_no_overwrite (fun _ => none) "Alice" "raw" []).2 (by decide)⟩⟩

/-- C9: the scraper degrades to the zero-value result on a network failure,
on a 403 response, and on a page with no extractable content at all; the
embedding is a total function, mirroring that no exception escapes
`scrape_article`. -/
theorem c9_scrape_degrades (net : String → FetchOutcome) (url : String) :
    (net url = FetchOutcome.failure → scrapeFresh net url = zeroScrape) ∧
    (∀ t a d, net url = FetchOutcome.page 403 t a d →
      scrapeFresh net url = zeroScrape) ∧
    (∀ s, net url = FetchOutcome.page s none none none →
      scrapeFresh net url = zeroScrape) := by
  refine ⟨?_, ?_, ?_⟩
  · intro h
    simp [scrapeFresh, h]
  · intro t a d h
    simp [scrapeFresh, h]
  · intro s h
    simp only [scrapeFresh, h]
    by_cases h4 : s = 403
    · rw [if_pos h4]
    · rw [if_neg h4]
      by_cases h5 : 400 ≤ s ∧ s < 600
      · rw [if_pos h5]
      · rw [if_neg h5]
        rfl

/-- C9 witness: a failing network concretely yields the zero value. -/
theorem c9_witness :
    scrapeFresh (fun _ => FetchOutcome.failure) "u" = zeroScrape :=
  (c9_scrape_degrades (fun _ => FetchOutcome.failure) "u").1 rfl

/-- C10: every article in the collection materialized by `aggregate` has a
non-empty url; no article lacking a url survives the run. -/
theorem c10_aggregate_urls (net : String → FetchOutcome)
    (c : List (String × ScrapedData)) (fetched : List Article) (a : Article)
    (h : a ∈ (aggregate net c fetched).1) :
    ∃ u, a.url = some u ∧ u ≠ "" := by
  simp only [aggregate, cleanData] at h
  obtain ⟨u, hu, hne, _⟩ := mem_cleanAux [] _ h
  exact ⟨u, hu, hne⟩

/-- C10 witness: the concrete aggregate run over one article with url "x"
under a failing network, applied to its single output article. -/
theorem c10_witness : ∃ u, witOut.url = some u ∧ u ≠ "" :=
  c10_aggregate_urls (fun _ => FetchOutcome.failure) [] [witArticle] witOut
    (by decide)
